import Mathlib

/-
Verification development for the arXiv -> Discord digest pipeline
(three Python variants: arxiv2discord_improved.py, arXiv2discord_semantic_test.py,
arxiv2discord_open.py).

Modelling conventions:
* Python strings are sequences of code points, embedded as `List Char` (`Str`).
* External effects (HTTP fetch, the llama.cpp subprocess, the Discord webhook)
  are passed in as explicit outcome values / response functions; the pure logic
  around them is translated line by line from the source.
* `re.IGNORECASE` keyword matching is embedded by lowercasing the text and
  keeping the (already lowercase) pattern alternatives; each regex pattern in
  the fixed keyword lists is a finite alternation of literals, optionally
  surrounded by word boundaries, and is stored in that expanded form.
-/

set_option maxRecDepth 8000

/-- Python strings modelled as lists of code points. -/
abbrev Str := List Char

/-- Embed a Lean string literal as a Python string value. -/
def str (s : String) : Str := s.data

/-- Python `\w` (ASCII fragment): letters, digits, underscore. -/
def wordChar (c : Char) : Bool := c.isAlphanum || c = '_'

/-- Python `str.strip()`: drop whitespace from both ends. -/
def pyStrip (s : Str) : Str :=
  ((s.dropWhile Char.isWhitespace).reverse.dropWhile Char.isWhitespace).reverse

/-- Python `str.split(sep)` for a one-character separator. -/
def splitChar (sep : Char) : Str → List Str
  | [] => [[]]
  | c :: r =>
    if c = sep then [] :: splitChar sep r
    else
      match splitChar sep r with
      | [] => [[c]]
      | l :: ls => (c :: l) :: ls

/-- Python `text.split('\n')`. -/
def splitLines (s : Str) : List Str := splitChar '\n' s

/-- Python `"\n".join(lines)`. -/
def joinLines (ls : List Str) : Str := List.intercalate (str "\n") ls

/-- Index of the first occurrence of `pat` in `s` (Python `str.find`), if any. -/
def firstOccFrom (pat : Str) : Str → Option Nat
  | [] => if pat.isPrefixOf ([] : Str) then some 0 else none
  | c :: r =>
    if pat.isPrefixOf (c :: r) then some 0
    else (firstOccFrom pat r).map (· + 1)

/-- Python `pat in s` for strings: substring containment. -/
def containsSub (pat s : Str) : Bool := (firstOccFrom pat s).isSome

/-- Worker for `replaceAll`; `fuel` only bounds the recursion depth (each step
consumes at least one character, so `fuel = s.length` never runs out). -/
def replaceAllGo (pat rep : Str) : Nat → Str → Str
  | 0, s => s
  | _, [] => []
  | fuel + 1, c :: r =>
    if !pat.isEmpty && pat.isPrefixOf (c :: r) then
      rep ++ replaceAllGo pat rep fuel ((c :: r).drop pat.length)
    else
      c :: replaceAllGo pat rep fuel r

/-- Python `str.replace(pat, rep)`: replace every non-overlapping occurrence,
left to right. -/
def replaceAll (pat rep : Str) (s : Str) : Str := replaceAllGo pat rep s.length s

/-- Python `int(...)` on a nonempty digit string. -/
def natOfDigits (s : Str) : Nat :=
  s.foldl (fun acc c => acc * 10 + (c.toNat - '0'.toNat)) 0

/-- One structured listing entry, as built by `parse_arxiv`
(`section` is a Lean keyword, hence the field name `sectionTxt`). -/
structure Entry where
  sectionTxt : Str
  arxiv_id : Str
  title : Str
  authors : Str
  first_author : Str
  link : Str
  primary_cat : Str
  abstract : Str
deriving DecidableEq, Repr

/-- Placeholder entry used for (never-taken) out-of-range list indexing. -/
def dEntry : Entry := ⟨[], [], [], [], [], [], [], []⟩

/-- One compiled keyword pattern: a finite alternation of literal strings,
optionally guarded by `\b` word boundaries on both sides (every `\b` in the
source keyword lists is paired). Alternatives are stored lowercased, mirroring
`re.IGNORECASE`. -/
structure KwPat where
  wb : Bool
  alts : List Str
deriving DecidableEq, Repr

/-- Pattern for a plain (substring) literal. -/
def kwLit (s : String) : KwPat := ⟨false, [s.data]⟩

/-- Pattern for a `\b...\b`-delimited literal. -/
def kwWb (s : String) : KwPat := ⟨true, [s.data]⟩

/-- Pattern for a finite alternation of literals. -/
def kwAlts (ss : List String) : KwPat := ⟨false, ss.map String.data⟩

/-- Does alternative `a` match at the head of `s`?  `prev` is the character
just before `s` in the full text (for the leading `\b`); the trailing `\b`
checks the character right after the matched span.  All `\b`-guarded
alternatives start and end with word characters, so a boundary holds exactly
when the adjacent text character is absent or not a word character. -/
def matchHere (wb : Bool) (a : Str) (prev : Option Char) (s : Str) : Bool :=
  a.isPrefixOf s &&
  (!wb ||
    ((match prev with | none => true | some p => !wordChar p) &&
     (match (s.drop a.length).head? with | none => true | some n => !wordChar n)))

/-- Does alternative `a` match anywhere in `s`? -/
def searchP (wb : Bool) (a : Str) (prev : Option Char) : Str → Bool
  | [] => matchHere wb a prev []
  | c :: r => matchHere wb a prev (c :: r) || searchP wb a (some c) r

/-- `bool(KEYWORDS_RE.search(text))` for a compiled keyword list: lowercase the
text and test every alternative of every pattern at every position. -/
def regexSearch (pats : List KwPat) (text : Str) : Bool :=
  let t := text.map Char.toLower
  pats.any (fun k => k.alts.any (fun a => searchP k.wb a none t))

namespace Semantic

/-- The `KEYWORDS` list of arXiv2discord_semantic_test.py (lines 14-56),
compiled pattern by pattern in source order. -/
def KEYWORDS : List KwPat := [
  kwWb "agn", kwLit "active galactic nucleus", kwLit "outflow", kwLit "feedback",
  kwLit "supermassive black hole", kwWb "smbh", kwLit "black hole mass",
  kwLit "quasar", kwLit "seyfert", kwLit "blazar", kwLit "radio galaxy",
  kwLit "accretion disk", kwLit "eddington", kwLit "radiatively efficient",
  kwLit "jet", kwLit "relativistic", kwLit "radio loud", kwLit "radio quiet",
  kwAlts ["emissionline", "emission-line", "emission line"],
  kwWb "bpt", kwLit "photoionization",
  kwLit "ionization parameter", kwLit "cloudy", kwLit "mappings",
  kwAlts ["narrow-line region", "narrow line region"],
  kwWb "nlr",
  kwAlts ["broad-line region", "broad line region"],
  kwWb "blr",
  kwLit "balmer", kwLit "forbidden line", kwLit "recombination", kwLit "collisional",
  kwLit "line ratio", kwLit "diagnostic", kwLit "excitation",
  kwLit "metallicit", kwLit "oxygen abundance", kwLit "nitrogen abundance",
  kwLit "chemical evolution", kwLit "enrichment", kwLit "alpha enhancement",
  kwLit "stellar nucleosynthesis", kwLit "imf", kwLit "yield",
  kwAlts ["mass-metallicity", "mass metallicity"],
  kwLit "fundamental metallicity",
  kwAlts ["galaxy", "galaxies"],
  kwAlts ["coevolution", "co-evolution", "co evolution"],
  kwLit "merger", kwLit "interaction",
  kwLit "morphology", kwLit "bulge", kwLit "disk", kwLit "bar", kwLit "spiral arm",
  kwLit "elliptical", kwLit "lenticular", kwLit "irregular",
  kwLit "stellar mass", kwLit "halo mass", kwLit "dark matter halo",
  kwLit "star formation", kwLit "sfr", kwLit "specific star formation",
  kwLit "main sequence", kwLit "starburst", kwLit "quenching",
  kwLit "stellar feedback", kwLit "supernova", kwLit "stellar wind",
  kwLit "hii region", kwLit "molecular cloud", kwLit "ism",
  kwLit "environment", kwLit "cluster", kwLit "group", kwLit "field",
  kwLit "satellite", kwLit "central", kwLit "halo occupation",
  kwLit "cosmic web", kwLit "filament", kwLit "void",
  kwLit "sdss", kwLit "gaia", kwLit "hst", kwLit "jwst", kwLit "alma",
  kwLit "integral field", kwLit "ifu", kwLit "spectroscopy",
  kwLit "photometry", kwLit "imaging", kwLit "redshift survey"]

/-- Python re.findall with the pattern \b(\d+)\b : every maximal run of digits whose adjacent
characters (if any) are not word characters.  `prev` is the character before
the current suffix. -/
def findNumsGo : Nat → Option Char → Str → List Str
  | 0, _, _ => []
  | _, _, [] => []
  | fuel + 1, prev, c :: r =>
    if c.isDigit && (match prev with | none => true | some p => !wordChar p) then
      (if (match (r.dropWhile (·.isDigit)).head? with
           | none => true
           | some nc => !wordChar nc) then
        [c :: r.takeWhile (·.isDigit)]
       else []) ++
      findNumsGo fuel (c :: r.takeWhile (·.isDigit)).getLast? (r.dropWhile (·.isDigit))
    else
      findNumsGo fuel (some c) r

/-- Entry point of the digit-run scan; the fuel only bounds the recursion
depth (each step consumes at least one character, so `s.length` never runs
out). -/
def findNums (prev : Option Char) (s : Str) : List Str :=
  findNumsGo s.length prev s

/-- Lines 198-199: parse all integers out of the (stripped) model response and
keep those that are valid 1-based indices into `items`, shifted to 0-based. -/
def validIndices (items : List Entry) (stdout : Str) : List Nat :=
  (findNums none (pyStrip stdout)).filterMap (fun n =>
    if 1 ≤ natOfDigits n && natOfDigits n ≤ items.length then
      some (natOfDigits n - 1)
    else none)

/-- Outcome of the `subprocess.run` invocation in `run_llm_selection`:
either the process completed (with a return code and stdout), or the call
raised (`TimeoutExpired`, missing binary, or any other exception). -/
inductive ProcOutcome where
  | completed (returncode : Int) (stdout : Str)
  | raised
deriving DecidableEq, Repr

/-- `keyword_fallback_selection` (lines 213-222): keep the entries whose
`f"{title} {abstract}"` text matches the keyword regex, capped at 5. -/
def keyword_fallback_selection (items : List Entry) : List Entry :=
  (items.filter (fun it =>
    regexSearch KEYWORDS (it.title ++ str " " ++ it.abstract))).take 5

/-- `run_llm_selection` (lines 159-211): return everything when at most 5
entries; otherwise use the model response to pick indices, falling back to the
keyword selection when the process raised, exited non-zero, or fewer than 3
valid indices were recovered. -/
def run_llm_selection (items : List Entry) (proc : ProcOutcome) : List Entry :=
  if items.length ≤ 5 then items
  else
    match proc with
    | .raised => keyword_fallback_selection items
    | .completed rc out =>
      if rc ≠ 0 then keyword_fallback_selection items
      else
        let idxs := validIndices items out
        if 3 ≤ idxs.length then
          (idxs.take 5).map (fun i => items.getD i dEntry)
        else
          keyword_fallback_selection items

end Semantic

/-- Index of the last literal space character in `s`, if any
(Python `s.rsplit(" ", 1)` boundary). -/
def lastSpaceIdx : Str → Option Nat
  | [] => none
  | c :: r =>
    match lastSpaceIdx r with
    | some i => some (i + 1)
    | none => if c = ' ' then some 0 else none

/-- Python `s.rsplit(" ", 1)[0]`: everything before the last space, or the
whole string when it contains no space. -/
def rsplitHead (s : Str) : Str :=
  match lastSpaceIdx s with
  | none => s
  | some i => s.take i

namespace Improved

/-- The `KEYWORDS` list of arxiv2discord_improved.py (lines 15-22),
compiled pattern by pattern in source order. -/
def KEYWORDS : List KwPat := [
  kwWb "agn", kwLit "active galactic nucleus", kwLit "outflow", kwLit "feedback",
  kwLit "photoionization", kwLit "ionization parameter", kwLit "cloudy", kwLit "mappings",
  kwAlts ["emissionline", "emission-line", "emission line"],
  kwWb "bpt", kwLit "metallicit", kwLit "oxygen abundance",
  kwLit "supermassive black hole", kwWb "smbh", kwLit "black hole mass",
  kwAlts ["coevolution", "co-evolution", "co evolution"],
  kwAlts ["narrow-line region", "narrow line region"],
  kwWb "nlr",
  kwAlts ["broad-line region", "broad line region"],
  kwWb "blr",
  kwAlts ["galaxy", "galaxies"],
  kwLit "quasar", kwLit "seyfert"]

/-- `CATEGORIES_OK` (line 14). -/
def CATEGORIES_OK : List Str :=
  [str "astro-ph.GA", str "astro-ph.CO", str "astro-ph.HE", str "astro-ph"]

/-- `filter_candidates` (lines 98-113): keep entries whose primary category is
allowed (or contains "astro-ph") and whose `f"{title} {abstract}"` text matches
the keyword regex, capped at 8. -/
def filter_candidates (items : List Entry) : List Entry :=
  (items.filter (fun it =>
    (CATEGORIES_OK.contains it.primary_cat ||
      containsSub (str "astro-ph") it.primary_cat) &&
    regexSearch KEYWORDS (it.title ++ str " " ++ it.abstract))).take 8

/-- `_truncate` (lines 115-119): strip, and when the result exceeds
`max_chars`, keep the prefix up to the last space within the first `max_chars`
characters (the whole prefix if it has no space) and append `"..."`. -/
def _truncate (s : Str) (max_chars : Nat) : Str :=
  let s := pyStrip s
  if s.length ≤ max_chars then s
  else rsplitHead (s.take max_chars) ++ str "..."

/-- First half of `clean_output` (line 186):
the DOTALL lazy re.sub that keeps the text from the first marker on
drops everything before the earliest occurrence of either marker (the lazy
`.*?` stops at the leftmost position where one alternative matches). -/
def cutBeforeMarker (text : Str) : Str :=
  match firstOccFrom (str "**Paper:") text, firstOccFrom (str "Daily Overview:") text with
  | none, none => text
  | some i, none => text.drop i
  | none, some j => text.drop j
  | some i, some j => text.drop (min i j)

/-- One step of the removal loop in `clean_output` (lines 189-192): truncate
the text at the first occurrence of `marker`, if present. -/
def cutAtFirst (marker : Str) (text : Str) : Str :=
  match firstOccFrom marker text with
  | none => text
  | some i => text.take i

/-- `clean_output` (lines 183-194). -/
def clean_output (text : Str) : Str :=
  let t := cutBeforeMarker text
  let t := cutAtFirst (str "Today\x27s arXiv") t
  let t := cutAtFirst (str "Please analyze") t
  let t := cutAtFirst (str "Focus only on") t
  pyStrip t

/-- The per-candidate lines appended by the loop of `fallback_list`
(lines 199-202): a bullet line with the title truncated to 100 characters,
then an indented line with the link (trailing newline included). -/
def fallbackLines : List Entry → List Str
  | [] => []
  | p :: ps =>
    (str "• " ++ _truncate p.title 100) ::
    (str "  " ++ p.link ++ str "\n") :: fallbackLines ps

/-- `fallback_list` (lines 196-203): the warning preamble followed by the
per-candidate lines, joined with newlines. -/
def fallback_list (candidates : List Entry) : Str :=
  joinLines (str "⚠️ LLM processing failed. Today\x27s relevant astro-ph papers:\n"
    :: fallbackLines candidates)

/-- The synthesis step of `main` (lines 260-274): `llm` is the outcome of
`run_llama` (which raises on timeout, missing binary/model, non-zero exit or
empty output, all folded into `Except.error`).  On success the output is
cleaned and validated; any failure yields `fallback_list`. -/
def synthesize (candidates : List Entry) (llm : Except Str Str) : Str :=
  match llm with
  | .error _ => fallback_list candidates
  | .ok raw =>
    let output := clean_output raw
    if output.length < 100 || !containsSub (str "**Paper:") output then
      fallback_list candidates
    else output

/-- The chunk-building loop of `post_discord` (lines 212-225), with the final
flush of `current_chunk`. -/
def chunkLoop : List Str → List Str → Str → List Str
  | [], chunks, current => if current = [] then chunks else chunks ++ [current]
  | line :: rest, chunks, current =>
    if current.length + line.length + 1 > 1900 then
      chunkLoop rest (if current = [] then chunks else chunks ++ [current]) line
    else
      chunkLoop rest chunks (if current = [] then line else current ++ str "\n" ++ line)

/-- Split `text` into Discord chunks (lines 211-225). -/
def splitChunks (text : Str) : List Str :=
  chunkLoop (splitLines text) [] []

/-- The `**Part i/n**` header prepended to chunk `i` (0-based) when there are
several chunks (lines 230-232). -/
def partHeader (i n : Nat) : Str :=
  if i = 0 then
    str "**Part " ++ Nat.toDigits 10 (i + 1) ++ str "/" ++ Nat.toDigits 10 n ++ str "**\n"
  else
    str "**Part " ++ Nat.toDigits 10 (i + 1) ++ str "/" ++ Nat.toDigits 10 n ++ str " (cont.)**\n"

/-- Prepend part headers to each chunk, starting at index `i`. -/
def addHeaders (n : Nat) : Nat → List Str → List Str
  | _, [] => []
  | i, c :: r => (partHeader i n ++ c) :: addHeaders n (i + 1) r

/-- The payloads actually posted: headers are injected only when there is more
than one chunk (lines 229-234). -/
def payloads (chunks : List Str) : List Str :=
  if chunks.length > 1 then addHeaders chunks.length 0 chunks else chunks

/-- The relevant part of a `requests.post` response. -/
structure HttpResp where
  ok : Bool
  status : Nat
  body : Str

/-- The failure log line of line 238:
`f"Discord POST failed: {response.status_code} - {response.text[:100]}"`. -/
def failLog (r : HttpResp) : Str :=
  str "Discord POST failed: " ++ Nat.toDigits 10 r.status ++ str " - " ++ r.body.take 100

/-- `f"Sending {len(chunks)} Discord chunks"` (line 227). -/
def sendingLog (n : Nat) : Str :=
  str "Sending " ++ Nat.toDigits 10 n ++ str " Discord chunks"

/-- Trace of one `post_discord` call: the payloads posted (with the success flag of each response, in order) and the lines printed to standard output. -/
structure PublishResult where
  posts : List (Str × Bool)
  printed : List Str
deriving DecidableEq

/-- The delivery loop of `post_discord` (lines 229-238): every payload is
posted in order; a non-ok response only prints the failure line, the loop
continues.  `respond` gives the response of the webhook to the `j`-th request. -/
def sendChunks (respond : Nat → Str → HttpResp) : Nat → List Str → PublishResult
  | _, [] => ⟨[], []⟩
  | j, p :: ps =>
    let r := respond j p
    let rest := sendChunks respond (j + 1) ps
    ⟨(p, r.ok) :: rest.posts, (if r.ok then [] else [failLog r]) ++ rest.printed⟩

/-- `post_discord` (lines 205-238).  When the webhook is the empty string the
function prints a warning and returns without posting; otherwise it chunks the
text, injects part headers, and posts every payload. -/
def post_discord (webhook : Str) (text : Str) (respond : Nat → Str → HttpResp) :
    PublishResult :=
  if webhook = [] then ⟨[], [str "[WARN] DISCORD_WEBHOOK not set."]⟩
  else
    let chunks := splitChunks text
    let res := sendChunks respond 0 (payloads chunks)
    ⟨res.posts, sendingLog chunks.length :: res.printed⟩

end Improved

/-- One `<dt>` record of a listing: the anchor selected by
`dt.select_one` for an anchor whose href contains /abs/, as `(href, text)`, when present. -/
structure DtRec where
  anchor : Option (Str × Str)
deriving DecidableEq, Repr

/-- One `<dd>` record of a listing: the flattened `get_text` contents of the
`div.list-title`, `div.list-authors`, `div.list-subjects` and `p.mathjax`
children selected by `parse_arxiv`, each when present. -/
structure DdRec where
  list_title : Option Str
  list_authors : Option Str
  list_subjects : Option Str
  mathjax : Option Str
deriving DecidableEq, Repr

/-- One top-level sibling of the parsed listing document (the BeautifulSoup
tree of an arXiv /list page is a flat sibling sequence of headings, definition
lists and other nodes). -/
inductive Node where
  | h3 (text : Str)
  | dl (dts : List DtRec) (dds : List DdRec)
  | other
deriving DecidableEq, Repr

/-- Is this node an `<h3>` heading? -/
def Node.isH3 : Node → Bool
  | .h3 _ => true
  | _ => false

/-- `re.search(r"(astro-ph\.[A-Z]{2}|astro-ph)", s)` with `m.group(1)`: the
leftmost occurrence of "astro-ph", extended by `.XY` (two ASCII uppercase
letters) when the first alternative matches there. -/
def matchCat : Str → Option Str
  | [] => none
  | c :: r =>
    if (str "astro-ph").isPrefixOf (c :: r) then
      match (c :: r).drop 8 with
      | '.' :: a :: b :: _ =>
        if a.isUpper && b.isUpper then some (str "astro-ph." ++ [a, b])
        else some (str "astro-ph")
      | _ => some (str "astro-ph")
    else matchCat r

namespace Improved

/-- Entry extraction for one `(dt, dd)` pair (lines 70-95): skipped when the
`dt` has no abstract-page anchor. -/
def mkEntry (sec : Str) (dt : DtRec) (dd : DdRec) : Option Entry :=
  match dt.anchor with
  | none => none
  | some (href, atext) =>
    let link := str "https://arxiv.org" ++ href
    let arxiv_id := replaceAll (str "arXiv:") [] atext
    let title :=
      match dd.list_title with
      | some t => replaceAll (str "Title: ") [] t
      | none => []
    let authors :=
      match dd.list_authors with
      | some a => pyStrip (replaceAll (str "Authors:") [] a)
      | none => []
    let first_author :=
      if authors = [] then str "Unknown"
      else pyStrip ((splitChar ',' authors).headD [])
    let primary_cat :=
      match dd.list_subjects with
      | none => str "astro-ph"
      | some s0 =>
        let sraw := pyStrip (replaceAll (str "Subjects:") [] s0)
        match matchCat sraw with
        | some cpat => cpat
        | none => str "astro-ph"
    let abstract := dd.mathjax.getD []
    some { sectionTxt := sec, arxiv_id := arxiv_id, title := title,
           authors := authors, first_author := first_author, link := link,
           primary_cat := primary_cat, abstract := abstract }

/-- Entries of one `<dl>` block: `zip(dl.select("dt"), dl.select("dd"))`
with anchor-less pairs skipped (lines 69-95). -/
def entriesOfDl (sec : Str) (dts : List DtRec) (dds : List DdRec) : List Entry :=
  (dts.zip dds).filterMap (fun p => mkEntry sec p.1 p.2)

/-- `h3.find_next_sibling("dl")`: the first `<dl>` among the following
siblings — it does NOT stop at the next heading. -/
def findNextDl : List Node → Option (List DtRec × List DdRec)
  | [] => none
  | .dl dts dds :: _ => some (dts, dds)
  | _ :: r => findNextDl r

/-- `parse_arxiv` (lines 61-96): for every `<h3>` in document order, take the
first following `<dl>` sibling (if any) and collect its entries. -/
def parse_arxiv : List Node → List Entry
  | [] => []
  | .h3 s :: r =>
    (match findNextDl r with
     | none => []
     | some (dts, dds) => entriesOfDl s dts dds) ++ parse_arxiv r
  | _ :: r => parse_arxiv r

/-- Modelled from the spec: "find the first following structural list block
before the next heading" — the sibling scan stops at the next `<h3>`. -/
def findNextDlStop : List Node → Option (List DtRec × List DdRec)
  | [] => none
  | .dl dts dds :: _ => some (dts, dds)
  | .h3 _ :: _ => none
  | _ :: r => findNextDlStop r

/-- Modelled from the spec: `parse` where each heading is associated with the
first list block that follows it and precedes the next heading. -/
def parse_spec : List Node → List Entry
  | [] => []
  | .h3 s :: r =>
    (match findNextDlStop r with
     | none => []
     | some (dts, dds) => entriesOfDl s dts dds) ++ parse_spec r
  | _ :: r => parse_spec r

/-- A document is well formed for heading/list association when, after every
heading, the first following `<dl>` sibling is not preceded by another
heading (so the stopping and non-stopping scans agree). -/
def wellFormed : List Node → Bool
  | [] => true
  | .h3 _ :: r => decide (findNextDl r = findNextDlStop r) && wellFormed r
  | _ :: r => wellFormed r

/-- `main` (lines 240-276), as a function of the two external outcomes: the
HTTP fetch (its parsed document on success; `raise_for_status` propagates
uncaught on failure) and the `run_llama` invocation.  The result is the text
handed to `post_discord`, or the uncaught exception. -/
def main (fetch : Except Str (List Node)) (llm : Except Str Str) :
    Except Str Str :=
  match fetch with
  | .error e => .error e
  | .ok doc =>
    let items := parse_arxiv doc
    let candidates := filter_candidates items
    if candidates = [] then .ok (str "No relevant astro-ph papers found today.")
    else .ok (synthesize candidates llm)

end Improved

/-! Concrete test data used by the witnesses and counterexamples. -/

/-- Test entry with keyword-free title "aaa". -/
def eA : Entry := { dEntry with title := str "aaa", link := str "http://a", primary_cat := str "astro-ph" }

/-- Test entry with keyword-free title "bbb". -/
def eB : Entry := { dEntry with title := str "bbb", link := str "http://b", primary_cat := str "astro-ph" }

/-- Test entry with keyword-free title "ccc". -/
def eC : Entry := { dEntry with title := str "ccc", link := str "http://c", primary_cat := str "astro-ph" }

/-- Test entry with keyword-free title "ddd". -/
def eD : Entry := { dEntry with title := str "ddd", link := str "http://d", primary_cat := str "astro-ph" }

/-- Test entry with keyword-free title "eee". -/
def eE : Entry := { dEntry with title := str "eee", link := str "http://e", primary_cat := str "astro-ph" }

/-- Test entry with keyword-free title "fff". -/
def eF : Entry := { dEntry with title := str "fff", link := str "http://f", primary_cat := str "astro-ph" }

/-- Six distinct entries, more than the selection limit of 5, none of which
matches any keyword pattern. -/
def items6 : List Entry := [eA, eB, eC, eD, eE, eF]

/-- Test entry with an allowed category but no keyword match. -/
def eHello : Entry := { dEntry with title := str "hello", link := str "http://h", primary_cat := str "astro-ph" }

/-- Test entry for the fallback report. -/
def eTango : Entry := { dEntry with title := str "Tango", link := str "http://x" }

/-- A `<dt>` record with a valid abstract-page anchor. -/
def dtX : DtRec := ⟨some (str "/abs/2501.00001", str "arXiv:2501.00001")⟩

/-- A `<dd>` record with no recognised children. -/
def ddN : DdRec := ⟨none, none, none, none⟩

/-- A document where the first heading has no list block before the second
heading: `find_next_sibling("dl")` reaches past the second heading. -/
def cdoc : List Node :=
  [Node.h3 (str "New submissions"), Node.h3 (str "Cross-lists"), Node.dl [dtX] [ddN]]

/-- A well-formed document: the list block of the heading precedes everything else. -/
def wdoc : List Node := [Node.h3 (str "New submissions"), Node.dl [dtX] [ddN]]

/-- A single 1901-character line: one character over the chunk budget. -/
def bigA : Str := List.replicate 1901 'a'

/-! Helper lemmas. -/

/-- In-range `getD` indexing returns a member of the list. -/
lemma getD_mem_of_lt {α : Type} (l : List α) (i : Nat) (d : α) (h : i < l.length) :
    l.getD i d ∈ l := by
  induction l generalizing i with
  | nil => simp at h
  | cons c r ih =>
    cases i with
    | zero => simp [List.getD]
    | succ k =>
      simp only [List.getD_cons_succ]
      exact List.mem_cons_of_mem _ (ih k (by simpa using h))

/-- Every recovered model index is in range for the entry list. -/
lemma validIndices_lt_length (items : List Entry) (out : Str) :
    ∀ i ∈ Semantic.validIndices items out, i < items.length := by
  intro i hi
  simp only [Semantic.validIndices, List.mem_filterMap] at hi
  obtain ⟨n, _, hn⟩ := hi
  split at hn
  case isTrue h =>
    simp only [Option.some.injEq] at hn
    simp only [Bool.and_eq_true, decide_eq_true_eq] at h
    omega
  case isFalse h => simp at hn

/-- Splitting on a separator the text does not contain yields one piece. -/
lemma splitChar_not_mem {sep : Char} {t : Str} (h : sep ∉ t) : splitChar sep t = [t] := by
  induction t with
  | nil => rfl
  | cons c r ih =>
    have hc : ¬ c = sep := by
      intro he
      exact h (he ▸ List.mem_cons_self c r)
    have hr := ih (fun hm => h (List.mem_cons_of_mem c hm))
    simp [splitChar, hc, hr]

/-- Invariant of the chunk-building loop: when every pending line, every
accumulated chunk and the current chunk are within the budget, so is every
produced chunk. -/
lemma chunkLoop_bound (lines chunks : List Str) (current : Str)
    (hl : ∀ l ∈ lines, l.length ≤ 1900)
    (hc : ∀ c ∈ chunks, c.length ≤ 1900)
    (hcur : current.length ≤ 1900) :
    ∀ c ∈ Improved.chunkLoop lines chunks current, c.length ≤ 1900 := by
  induction lines generalizing chunks current with
  | nil =>
    intro c hm
    simp only [Improved.chunkLoop] at hm
    split at hm
    · exact hc c hm
    · rcases List.mem_append.mp hm with h | h
      · exact hc c h
      · simp only [List.mem_singleton] at h
        exact h ▸ hcur
  | cons line rest ih =>
    intro c hm
    have hline : line.length ≤ 1900 := hl line (List.mem_cons_self _ _)
    have hrest : ∀ l ∈ rest, l.length ≤ 1900 :=
      fun l hl' => hl l (List.mem_cons_of_mem _ hl')
    simp only [Improved.chunkLoop] at hm
    split at hm
    · refine ih _ _ hrest ?_ hline c hm
      intro c' hc'
      split at hc'
      · exact hc c' hc'
      · rcases List.mem_append.mp hc' with h | h
        · exact hc c' h
        · simp only [List.mem_singleton] at h
          exact h ▸ hcur
    · refine ih _ _ hrest hc ?_ c hm
      split
      · exact hline
      · rename_i hgt hne
        simp only [List.length_append, List.length_cons]
        simp only [not_lt] at hgt
        simp [str] at hgt ⊢
        omega

/-- A single pending line becomes a single chunk (whatever its length). -/
lemma chunkLoop_single (t : Str) (ht : t ≠ []) :
    Improved.chunkLoop [t] [] [] = [t] := by
  simp only [Improved.chunkLoop, List.length_nil]
  split
  · simp [Improved.chunkLoop, ht]
  · simp [Improved.chunkLoop, ht]

/-- When `lastSpaceIdx` finds nothing, no position holds a space. -/
lemma lastSpaceIdx_none (l : Str) (h : lastSpaceIdx l = none) :
    ∀ j, l.get? j ≠ some ' ' := by
  induction l with
  | nil => intro j; simp
  | cons c r ih =>
    intro j
    simp only [lastSpaceIdx] at h
    rcases hr : lastSpaceIdx r with _ | i
    · rw [hr] at h
      have hc : ¬ c = ' ' := by
        intro he
        simp [he] at h
      cases j with
      | zero => simpa using hc
      | succ k => simpa using ih hr k
    · rw [hr] at h
      simp at h

/-- `lastSpaceIdx` returns the position of the last space. -/
lemma lastSpaceIdx_some (l : Str) (i : Nat) (h : lastSpaceIdx l = some i) :
    l.get? i = some ' ' ∧ ∀ j, i < j → l.get? j ≠ some ' ' := by
  induction l generalizing i with
  | nil => simp [lastSpaceIdx] at h
  | cons c r ih =>
    simp only [lastSpaceIdx] at h
    rcases hr : lastSpaceIdx r with _ | k
    · rw [hr] at h
      rcases hc : decide (c = ' ') with _ | _
      · simp [of_decide_eq_false hc] at h
      · have hc' := of_decide_eq_true hc
        simp [hc'] at h
        constructor
        · simp [← h, hc']
        · intro j hj
          rw [← h] at hj
          cases j with
          | zero => omega
          | succ m => simpa using lastSpaceIdx_none r hr m
    · rw [hr] at h
      simp only [Option.some.injEq] at h
      obtain ⟨h1, h2⟩ := ih k hr
      constructor
      · rw [← h]
        simpa using h1
      · intro j hj
        rw [← h] at hj
        cases j with
        | zero => omega
        | succ m =>
          simpa using h2 m (by omega)

/-- A space in the string gives `lastSpaceIdx` a result. -/
lemma lastSpaceIdx_isSome (l : Str) (h : ' ' ∈ l) :
    ∃ i, lastSpaceIdx l = some i := by
  rcases hr : lastSpaceIdx l with _ | i
  · obtain ⟨j, hj⟩ := List.get_of_mem h
    exact absurd (hj ▸ List.get?_eq_get j.isLt) (lastSpaceIdx_none l hr j)
  · exact ⟨i, rfl⟩

/-- The bullet and link lines of each candidate appear among the fallback lines. -/
lemma fallbackLines_mem (cs : List Entry) :
    ∀ p ∈ cs, (str "• " ++ Improved._truncate p.title 100) ∈ Improved.fallbackLines cs ∧
      (str "  " ++ p.link ++ str "\n") ∈ Improved.fallbackLines cs := by
  induction cs with
  | nil => simp
  | cons q qs ih =>
    intro p hp
    rcases List.mem_cons.mp hp with h | h
    · subst h
      simp [Improved.fallbackLines]
    · obtain ⟨h1, h2⟩ := ih p h
      simp only [Improved.fallbackLines]
      exact ⟨List.mem_cons_of_mem _ (List.mem_cons_of_mem _ h1),
             List.mem_cons_of_mem _ (List.mem_cons_of_mem _ h2)⟩

/-! Claim theorems. -/

/-- C8 (counterexample): a single entry with an allowed category but no
keyword match is NOT returned unchanged by the keyword strategy
`filter_candidates`, although the input length (1) is at most the limit (8):
the keyword filter applies regardless of input size, so the claimed identity
fails for the keyword strategy. -/
theorem c8_small_input_identity_counterexample :
    [eHello].length ≤ 8 ∧ Improved.filter_candidates [eHello] = [] ∧
    Improved.filter_candidates [eHello] ≠ [eHello] := by
  refine ⟨by decide, by decide, by decide⟩

/-- C8 (amended): the identity on small inputs holds for the model-assisted
Selector: with at most 5 entries, `run_llm_selection` returns its input
unchanged, before any model invocation (so for every process outcome). -/
theorem c8_small_input_identity_amended (items : List Entry)
    (proc : Semantic.ProcOutcome) (h : items.length ≤ 5) :
    Semantic.run_llm_selection items proc = items := by
  simp [Semantic.run_llm_selection, h]

/-- C8 (witness): the amended identity at a concrete three-entry input. -/
theorem c8_small_input_identity_witness :
    Semantic.run_llm_selection [eA, eB, eC] Semantic.ProcOutcome.raised = [eA, eB, eC] :=
  c8_small_input_identity_amended [eA, eB, eC] Semantic.ProcOutcome.raised (by decide)

/-- C9 (counterexample): with the webhook unset, `post_discord` posts nothing
but prints only the fixed warning line, which does not contain the content
"hello": the content is NOT surfaced through the local sink. -/
theorem c9_webhook_unset_counterexample :
    (Improved.post_discord [] (str "hello") (fun _ _ => Improved.HttpResp.mk true 200 [])).posts = [] ∧
    (Improved.post_discord [] (str "hello") (fun _ _ => Improved.HttpResp.mk true 200 [])).printed =
      [str "[WARN] DISCORD_WEBHOOK not set."] ∧
    containsSub (str "hello") (str "[WARN] DISCORD_WEBHOOK not set.") = false := by
  refine ⟨by decide, by decide, by decide⟩

/-- C9 (amended): with the webhook unset (empty string), `post_discord`
attempts no HTTP request and returns normally after printing only the fixed
warning line; the content itself is discarded, not surfaced. -/
theorem c9_webhook_unset_amended (text : Str) (respond : Nat → Str → Improved.HttpResp) :
    Improved.post_discord [] text respond =
      ⟨[], [str "[WARN] DISCORD_WEBHOOK not set."]⟩ := by
  rfl

/-- C2 (counterexample): two chunks, every request failing: the second chunk
is still posted after the first one failed, so delivery does NOT stop at the
first failure. -/
theorem c2_delivery_halt_counterexample :
    (Improved.sendChunks (fun _ _ => Improved.HttpResp.mk false 500 (str "err")) 0
      [str "a", str "b"]).posts = [(str "a", false), (str "b", false)] := by
  decide

/-- C2 (amended): the delivery loop of `post_discord` posts every chunk in
order regardless of response failures; a failed request only contributes a
log line (one per failed post), it never halts the remaining deliveries. -/
theorem c2_delivery_halt_amended (respond : Nat → Str → Improved.HttpResp)
    (j : Nat) (chunks : List Str) :
    (Improved.sendChunks respond j chunks).posts.map Prod.fst = chunks ∧
    (Improved.sendChunks respond j chunks).printed.length =
      ((Improved.sendChunks respond j chunks).posts.filter (fun pr => !pr.2)).length := by
  induction chunks generalizing j with
  | nil => simp [Improved.sendChunks]
  | cons p ps ih =>
    obtain ⟨ih1, ih2⟩ := ih (j + 1)
    rcases hok : (respond j p).ok with _ | _
    · simp [Improved.sendChunks, hok, ih1, ih2]
    · simp [Improved.sendChunks, hok, ih1, ih2]

/-- C6 (counterexample): a failing fetch makes the run abort with the uncaught
exception; in particular it does not publish the "no papers found" notice. -/
theorem c6_fetch_failure_counterexample :
    Improved.main (Except.error (str "boom")) (Except.error (str "x")) =
      Except.error (str "boom") ∧
    Improved.main (Except.error (str "boom")) (Except.error (str "x")) ≠
      Except.ok (str "No relevant astro-ph papers found today.") :=
  ⟨rfl, fun h => Except.noConfusion h⟩

/-- C6 (amended): a fetch failure propagates as an uncaught exception — the
run aborts and nothing is published; the deterministic "no papers found"
notice is published exactly when the fetch succeeds but no candidate survives
parsing and filtering (the Selector/Synthesizer stage is then skipped). -/
theorem c6_fetch_failure_amended :
    (∀ (e : Str) (llm : Except Str Str),
      Improved.main (Except.error e) llm = Except.error e) ∧
    (∀ (doc : List Node) (llm : Except Str Str),
      Improved.filter_candidates (Improved.parse_arxiv doc) = [] →
      Improved.main (Except.ok doc) llm =
        Except.ok (str "No relevant astro-ph papers found today.")) := by
  constructor
  · intro e llm
    rfl
  · intro doc llm h
    simp [Improved.main, h]

/-- C6 (witness): the amended statement at a concrete empty document. -/
theorem c6_fetch_failure_witness :
    Improved.main (Except.ok ([] : List Node)) (Except.error (str "x")) =
      Except.ok (str "No relevant astro-ph papers found today.") :=
  c6_fetch_failure_amended.2 [] (Except.error (str "x")) (by decide)

/-- C1 (counterexample): on six entries, a model response "5, 1, 3" yields the
candidates in the order of the MODEL `[eE, eA, eC]`: `eA` precedes `eE` in the
input, yet `eE` precedes `eA` in the result, so the relative order of the input is
not preserved. -/
theorem c1_selection_order_counterexample :
    Semantic.run_llm_selection items6 (Semantic.ProcOutcome.completed 0 (str "5, 1, 3")) =
      [eE, eA, eC] ∧
    items6.indexOf eA < items6.indexOf eE ∧
    [eE, eA, eC].indexOf eE < [eE, eA, eC].indexOf eA := by
  refine ⟨by decide, by decide, by decide⟩

/-- C1 (amended): when the model-assisted path is taken (more than 5 entries,
exit code 0) and at least 3 valid 1-based indices are recovered, the result is
the first 5 recovered indices mapped over the input — i.e. the candidates
appear in the order of the indices returned by the model, not in input order;
every returned candidate is still one of the input entries. -/
theorem c1_selection_order_amended (items : List Entry) (out : Str)
    (h5 : 5 < items.length)
    (h3 : 3 ≤ (Semantic.validIndices items out).length) :
    Semantic.run_llm_selection items (Semantic.ProcOutcome.completed 0 out) =
      ((Semantic.validIndices items out).take 5).map (fun i => items.getD i dEntry) ∧
    ∀ e ∈ Semantic.run_llm_selection items (Semantic.ProcOutcome.completed 0 out),
      e ∈ items := by
  have hrun : Semantic.run_llm_selection items (Semantic.ProcOutcome.completed 0 out) =
      ((Semantic.validIndices items out).take 5).map (fun i => items.getD i dEntry) := by
    simp [Semantic.run_llm_selection, Nat.not_le.mpr h5, h3]
  refine ⟨hrun, ?_⟩
  intro e he
  rw [hrun] at he
  obtain ⟨i, hi, hie⟩ := List.mem_map.mp he
  have hlt : i < items.length :=
    validIndices_lt_length items out i (List.mem_of_mem_take hi)
  exact hie ▸ getD_mem_of_lt items i dEntry hlt

/-- C1 (witness): the amended statement at the concrete "5, 1, 3" response on
six entries. -/
theorem c1_selection_order_witness :
    Semantic.run_llm_selection items6 (Semantic.ProcOutcome.completed 0 (str "5, 1, 3")) =
      ((Semantic.validIndices items6 (str "5, 1, 3")).take 5).map
        (fun i => items6.getD i dEntry) :=
  (c1_selection_order_amended items6 (str "5, 1, 3") (by decide) (by decide)).1

/-- C3 (counterexample): six entries none of which matches a keyword, model
process exiting non-zero: the result of the Selector is EMPTY, not the first
`limit` entries of the input — there is no positional-truncation tier. -/
theorem c3_fallback_chain_counterexample :
    Semantic.run_llm_selection items6 (Semantic.ProcOutcome.completed 1 []) = [] ∧
    items6.take 5 ≠ [] := by
  refine ⟨by decide, by decide⟩

/-- C3 (amended): whenever the model-assisted path fails (the invocation
raised — timeout, missing binary, any exception —, or the process exited
non-zero, or fewer than 3 valid indices were recovered), the
result of the Selector equals the keyword fallback `keyword_fallback_selection` (the first 5
keyword-matching entries, in original order — possibly fewer or none; there
is no positional-truncation tier), and that result is always a sublist of
the input: the chain never aborts. -/
theorem c3_fallback_chain_amended (items : List Entry) (proc : Semantic.ProcOutcome)
    (h5 : 5 < items.length)
    (hfail : proc = Semantic.ProcOutcome.raised ∨
      (∀ rc out, proc = Semantic.ProcOutcome.completed rc out →
        rc ≠ 0 ∨ (Semantic.validIndices items out).length < 3)) :
    Semantic.run_llm_selection items proc = Semantic.keyword_fallback_selection items ∧
    List.Sublist (Semantic.run_llm_selection items proc) items := by
  have hrun : Semantic.run_llm_selection items proc =
      Semantic.keyword_fallback_selection items := by
    cases proc with
    | raised => simp [Semantic.run_llm_selection, Nat.not_le.mpr h5]
    | completed rc out =>
      rcases hfail with h | h
      · exact absurd h (by simp)
      · rcases h rc out rfl with hrc | hlen
        · simp [Semantic.run_llm_selection, Nat.not_le.mpr h5, hrc]
        · rcases eq_or_ne rc 0 with h0 | h0
          · subst h0
            simp [Semantic.run_llm_selection, Nat.not_le.mpr h5, Nat.not_le.mpr hlen]
          · simp [Semantic.run_llm_selection, Nat.not_le.mpr h5, h0]
  refine ⟨hrun, ?_⟩
  rw [hrun]
  exact (List.take_sublist 5 _).trans (List.filter_sublist items)

/-- C3 (witness): the amended statement at a concrete non-zero exit on six
keyword-free entries. -/
theorem c3_fallback_chain_witness :
    Semantic.run_llm_selection items6 (Semantic.ProcOutcome.completed 1 []) =
      Semantic.keyword_fallback_selection items6 :=
  (c3_fallback_chain_amended items6 (Semantic.ProcOutcome.completed 1 [])
    (by decide)
    (Or.inr (by
      intro rc out h
      cases h
      exact Or.inl (by decide)))).1

/-- C5 (counterexample): for a candidate titled "Tango" with link "http://x",
the failure report produced by `synthesize` contains the title and the link,
but NO single line contains both: the report uses a bullet line for the title
and a separate indented line for the link (two lines per candidate, not one). -/
theorem c5_fallback_report_counterexample :
    containsSub (str "Tango")
      (Improved.synthesize [eTango] (Except.error (str "boom"))) = true ∧
    containsSub (str "http://x")
      (Improved.synthesize [eTango] (Except.error (str "boom"))) = true ∧
    ((splitLines (Improved.synthesize [eTango] (Except.error (str "boom")))).all
      (fun l => !(containsSub (str "Tango") l && containsSub (str "http://x") l))) = true := by
  refine ⟨by decide, by decide, by decide⟩

/-- C5 (amended): on any external-process failure, `synthesize` never raises
and returns exactly the deterministic fallback report `fallback_list`: the
warning preamble followed, for each candidate, by a bullet line holding its
title (truncated to 100 characters) and a second indented line holding its
link. -/
theorem c5_fallback_report_amended (cs : List Entry) (err : Str) :
    Improved.synthesize cs (Except.error err) = Improved.fallback_list cs ∧
    ∀ p ∈ cs,
      (str "• " ++ Improved._truncate p.title 100) ∈ Improved.fallbackLines cs ∧
      (str "  " ++ p.link ++ str "\n") ∈ Improved.fallbackLines cs := by
  exact ⟨rfl, fallbackLines_mem cs⟩

/-- C5 (witness): the amended statement at the concrete one-candidate input. -/
theorem c5_fallback_report_witness :
    Improved.synthesize [eTango] (Except.error (str "boom")) =
      Improved.fallback_list [eTango] ∧
    (str "• " ++ Improved._truncate eTango.title 100) ∈ Improved.fallbackLines [eTango] :=
  ⟨(c5_fallback_report_amended [eTango] (str "boom")).1,
   ((c5_fallback_report_amended [eTango] (str "boom")).2 eTango (by simp)).1⟩

/-- C4 (counterexample): a single 1901-character line is emitted as one chunk
of 1901 characters — over the 1900 budget, not hard-wrapped. -/
theorem c4_chunk_budget_counterexample :
    Improved.splitChunks bigA = [bigA] ∧
    ((Improved.splitChunks bigA).all (fun c => c.length ≤ 1900)) = false := by
  have hlen : bigA.length = 1901 := by
    rw [bigA]
    exact List.length_replicate 1901 'a'
  have hnl : '\n' ∉ bigA := by
    intro hm
    rw [bigA, List.mem_replicate] at hm
    exact absurd hm.2 (by decide)
  have hne : bigA ≠ [] := by
    intro he
    rw [he] at hlen
    simp at hlen
  have h2 : Improved.splitChunks bigA = [bigA] := by
    unfold Improved.splitChunks
    rw [show splitLines bigA = [bigA] from splitChar_not_mem hnl]
    exact chunkLoop_single bigA hne
  refine ⟨h2, ?_⟩
  rw [h2]
  simp only [List.all_cons, List.all_nil, Bool.and_true]
  rw [hlen]
  decide

/-- C4 (amended): when every input line fits the 1900-character budget, every
chunk produced by the splitter of `post_discord` fits it too (measured before the
part headers are injected); a nonempty text that is one single line — however
long — is emitted whole as a single chunk: never dropped, but also never
hard-wrapped. -/
theorem c4_chunk_budget_amended (text : Str) :
    ((∀ l ∈ splitLines text, l.length ≤ 1900) →
      ∀ c ∈ Improved.splitChunks text, c.length ≤ 1900) ∧
    (text ≠ [] → '\n' ∉ text → Improved.splitChunks text = [text]) := by
  constructor
  · intro hl
    exact chunkLoop_bound (splitLines text) [] [] hl (by simp) (by simp)
  · intro hne hnl
    unfold Improved.splitChunks
    rw [show splitLines text = [text] from splitChar_not_mem hnl]
    exact chunkLoop_single text hne

/-- C4 (witness): the amended statement at a two-line text and at a one-line
text. -/
theorem c4_chunk_budget_witness :
    (∀ c ∈ Improved.splitChunks (str "ab\ncd"), c.length ≤ 1900) ∧
    Improved.splitChunks (str "x") = [str "x"] :=
  ⟨(c4_chunk_budget_amended (str "ab\ncd")).1 (by decide),
   (c4_chunk_budget_amended (str "x")).2 (by decide) (by decide)⟩

/-- C7 (counterexample): a 1000-character space-free string truncated to 500
is cut after exactly 500 characters even though the character at the cut is a
word character — the cut lands in the middle of the (single) word. -/
theorem c7_truncate_wordbound_counterexample :
    Improved._truncate (List.replicate 1000 'a') 500 =
      List.replicate 500 'a' ++ str "..." ∧
    (List.replicate 1000 'a').get? 500 = some 'a' ∧
    ' ' ∉ List.replicate 1000 'a' := by
  refine ⟨by decide, by decide, ?_⟩
  intro hm
  rw [List.mem_replicate] at hm
  exact absurd hm.2 (by decide)

/-- C7 (amended): for a string whose stripped form exceeds the cap, the result
always ends with the ellipsis marker "..."; when the capped prefix contains a
space the cut is placed at the LAST space of the prefix (a whole-word
boundary); when the prefix contains no space the whole prefix is kept, so a
word can be cut mid-way. -/
theorem c7_truncate_wordbound_amended (s : Str) (m : Nat)
    (h : m < (pyStrip s).length) :
    (Improved._truncate s m).drop ((Improved._truncate s m).length - 3) = str "..." ∧
    (∀ i, lastSpaceIdx ((pyStrip s).take m) = some i →
      ((pyStrip s).take m).get? i = some ' ' ∧
      (∀ j, i < j → ((pyStrip s).take m).get? j ≠ some ' ') ∧
      Improved._truncate s m = ((pyStrip s).take m).take i ++ str "...") ∧
    (lastSpaceIdx ((pyStrip s).take m) = none →
      Improved._truncate s m = (pyStrip s).take m ++ str "...") := by
  have ht : Improved._truncate s m = rsplitHead ((pyStrip s).take m) ++ str "..." := by
    simp [Improved._truncate, Nat.not_le.mpr h]
  refine ⟨?_, ?_, ?_⟩
  · rw [ht]
    have h3 : (str "...").length = 3 := rfl
    have hlen : (rsplitHead ((pyStrip s).take m) ++ str "...").length - 3 =
        (rsplitHead ((pyStrip s).take m)).length := by
      simp only [List.length_append, h3]
      omega
    rw [hlen]
    exact List.drop_left _ _
  · intro i hi
    obtain ⟨hsp, hlast⟩ := lastSpaceIdx_some _ i hi
    refine ⟨hsp, hlast, ?_⟩
    rw [ht]
    simp [rsplitHead, hi]
  · intro hn
    rw [ht]
    simp [rsplitHead, hn]

/-- C7 (witness): the amended statement on "hello world foobar" with cap 9:
the capped prefix is "hello wor", whose last space sits at index 5, so the
result is "hello" followed by the ellipsis marker. -/
theorem c7_truncate_wordbound_witness :
    (Improved._truncate (str "hello world foobar") 9).drop
      ((Improved._truncate (str "hello world foobar") 9).length - 3) = str "..." ∧
    Improved._truncate (str "hello world foobar") 9 =
      ((pyStrip (str "hello world foobar")).take 9).take 5 ++ str "..." :=
  ⟨(c7_truncate_wordbound_amended (str "hello world foobar") 9 (by decide)).1,
   ((c7_truncate_wordbound_amended (str "hello world foobar") 9 (by decide)).2.1
      5 (by decide)).2.2⟩

/-- C10 (counterexample): in a document where the first heading is followed by
a second heading and only then by a list block, `parse_arxiv` associates that
list block with BOTH headings (duplicating its entry), while the
stop-at-next-heading rule of the claim yields it once. -/
theorem c10_heading_list_counterexample :
    (Improved.parse_arxiv cdoc).length = 2 ∧
    (Improved.parse_spec cdoc).length = 1 ∧
    Improved.parse_arxiv cdoc ≠ Improved.parse_spec cdoc := by
  refine ⟨by decide, by decide, by decide⟩

/-- C10 (amended): `parse_arxiv` associates with each heading the first list
block among ALL its following siblings, even one lying past the next heading;
the claimed stop-at-next-heading association holds exactly on documents where
the two scans agree (`wellFormed`), and a document without any heading always
yields the empty sequence. -/
theorem c10_heading_list_amended :
    (∀ doc : List Node, Improved.wellFormed doc = true →
      Improved.parse_arxiv doc = Improved.parse_spec doc) ∧
    (∀ doc : List Node, (∀ n ∈ doc, n.isH3 = false) →
      Improved.parse_arxiv doc = []) := by
  constructor
  · intro doc h
    induction doc with
    | nil => rfl
    | cons n r ih =>
      cases n with
      | h3 s =>
        simp only [Improved.wellFormed, Bool.and_eq_true, decide_eq_true_eq] at h
        simp only [Improved.parse_arxiv, Improved.parse_spec]
        rw [h.1, ih h.2]
      | dl dts dds =>
        simp only [Improved.wellFormed] at h
        simp only [Improved.parse_arxiv, Improved.parse_spec]
        exact ih h
      | other =>
        simp only [Improved.wellFormed] at h
        simp only [Improved.parse_arxiv, Improved.parse_spec]
        exact ih h
  · intro doc h
    induction doc with
    | nil => rfl
    | cons n r ih =>
      cases n with
      | h3 s =>
        exact absurd (h _ (List.mem_cons_self _ _)) (by simp [Node.isH3])
      | dl dts dds =>
        simp only [Improved.parse_arxiv]
        exact ih (fun n hn => h n (List.mem_cons_of_mem _ hn))
      | other =>
        simp only [Improved.parse_arxiv]
        exact ih (fun n hn => h n (List.mem_cons_of_mem _ hn))

/-- C10 (witness): the amended association at a concrete well-formed document
(heading immediately followed by its list block). -/
theorem c10_heading_list_witness :
    Improved.wellFormed wdoc = true ∧
    Improved.parse_arxiv wdoc = Improved.parse_spec wdoc :=
  ⟨by decide, c10_heading_list_amended.1 wdoc (by decide)⟩
